import Mathlib

/-!
Verification of the omo emulator core (`src/omo/src/emulator.rs`) against its
natural-language specification.

The file shallowly embeds the code of `emulator.rs`.  Machine integers are
modelled as `Nat` (with explicit `% 2^w` where the Rust code truncates or
wraps); hook callback values (`i64`) are modelled as `Int`.  The CPU emulation
engine (unicorn), the trie library, the RLP encoder and the `MemoryState`
store live outside this repository; the definitions embedding them carry a
doc comment starting with `Modelled from the spec:` and follow the
specification's description of those collaborators.
-/

/- ### Association-list helpers (maps keyed by `Nat`) -/

/-- Lookup in an association list (first matching key wins). -/
def lookupAssoc {α : Type} : List (Nat × α) → Nat → Option α
  | [], _ => none
  | (k', v) :: t, k => if k = k' then some v else lookupAssoc t k

/-- Update-or-append in an association list (replaces the first matching key). -/
def setAssoc {α : Type} : List (Nat × α) → Nat → α → List (Nat × α)
  | [], k, v => [(k, v)]
  | (k', v') :: t, k, v =>
    if k = k' then (k, v) :: t else (k', v') :: setAssoc t k v

/- ### Byte encodings -/

/-- Big-endian 4-byte encoding of a word, as `u32::to_be_bytes` produces it.
The per-byte `% 256` realizes the `as u32` truncation performed by the source
(`(addr >> 2) as u32`): high bits beyond 2^32 cannot influence any byte. -/
def be32Bytes (n : Nat) : List Nat :=
  [n / 2 ^ 24 % 256, n / 2 ^ 16 % 256, n / 2 ^ 8 % 256, n % 256]

/-- Big-endian 8-byte encoding of a word, as `u64::to_be_bytes` produces it. -/
def be64Bytes (n : Nat) : List Nat :=
  [n / 2 ^ 56 % 256, n / 2 ^ 48 % 256, n / 2 ^ 40 % 256, n / 2 ^ 32 % 256,
   n / 2 ^ 24 % 256, n / 2 ^ 16 % 256, n / 2 ^ 8 % 256, n % 256]

/-- Minimal big-endian digits of a number (empty for zero); used for the
long-form length header of the list encoding. -/
def beBytesMin : Nat → List Nat
  | 0 => []
  | n + 1 => beBytesMin ((n + 1) / 256) ++ [(n + 1) % 256]
decreasing_by exact Nat.div_lt_self (Nat.succ_pos n) (by omega)

/- ### State snapshot (`EmulatorState`, emulator.rs lines 288-293) -/

/-- `EmulatorState`: `{regs: RegisterState, memories: MemoryState, steps: u64}`.
`regs` is the register file as (register id, value) pairs in its stable
iteration order; `memories` is the sparse memory image as the sorted
association list of (word-aligned address, value bytes) that the source's
`BTreeMap` conversion iterates. -/
structure EmulatorState where
  regs : List (Nat × Nat)
  memories : List (Nat × List Nat)
  steps : Nat
deriving DecidableEq

/- ### State commitment (`EmulatorState::state_root`, emulator.rs 296-323) -/

/-- Numeric value of a byte-string key; on the fixed-width 4-byte keys used by
`state_root` this is injective, so comparing `keyVal`s compares keys. -/
def keyVal (k : List Nat) : Nat := k.foldl (fun a b => a * 256 + b) 0

/-- Modelled from the spec: the Merkle-Patricia trie of `trie_db` (not part of
this repository) has a canonical node structure determined by its set of
(key, value) pairs, independent of insertion order; we model the committed
trie by its canonical content, an association list sorted by key, with
`insert` replacing the value of an existing key.  The keccak root digest of
the real trie is a function of exactly this canonical content, so equalities
of roots are equalities of canonical contents. -/
def trieInsert : List (List Nat × List Nat) → List Nat × List Nat → List (List Nat × List Nat)
  | [], e => [e]
  | kv :: t, e =>
    if keyVal e.1 = keyVal kv.1 then e :: t
    else if keyVal e.1 < keyVal kv.1 then e :: kv :: t
    else kv :: trieInsert t e

/-- Build a trie by inserting a list of (key, value) pairs in order. -/
def buildTrie (l : List (List Nat × List Nat)) : List (List Nat × List Nat) :=
  l.foldl trieInsert []

/-- The trie key of a memory address: `(addr >> 2) as u32`, big-endian bytes
(`shortend_addr.to_be_bytes()` in the source). -/
def memKey (addr : Nat) : List Nat := be32Bytes (addr >>> 2)

/-- The combined register word `((reg_id as u64) << 32) + v` with `u64`
wrapping semantics. -/
def encReg (p : Nat × Nat) : Nat := ((p.1 % 2 ^ 32) * 2 ^ 32 + p.2 % 2 ^ 64) % 2 ^ 64

/-- Modelled from the spec: the RLP string item the external `rlp` crate's
`append_iter` emits for a byte string (the spec calls the result a
length-prefixed list element).  Only the 8-byte case is exercised here. -/
def rlpStr (bs : List Nat) : List Nat :=
  if bs.length = 1 ∧ bs.headD 0 < 128 then bs
  else if bs.length < 56 then (128 + bs.length) :: bs
  else (183 + (beBytesMin bs.length).length) :: (beBytesMin bs.length ++ bs)

/-- Modelled from the spec: the register file encoded as a length-prefixed
list, one element per register, each element the big-endian bytes of the
combined register word (the source's `RlpStream::new_list` / `append_iter`). -/
def rlpRegs (regs : List (Nat × Nat)) : List Nat :=
  let payload := (regs.map (fun p => rlpStr (be64Bytes (encReg p)))).flatten
  (if payload.length < 56 then [192 + payload.length]
   else (247 + (beBytesMin payload.length).length) :: beBytesMin payload.length) ++ payload

/-- `EmulatorState::state_root`: insert every (address, value) pair of the
sparse memory image under key `be32((addr >> 2) as u32)`, then insert the
encoded register file under key `0u32.to_be_bytes()`, and commit.  The root
is modelled by the committed trie's canonical content (see `trieInsert`). -/
def stateRoot (s : EmulatorState) : List (List Nat × List Nat) :=
  let t := s.memories.foldl (fun tr e => trieInsert tr (memKey e.1, e.2)) []
  trieInsert t (be32Bytes 0, rlpRegs s.regs)

/-- The state-commitment construction exactly as §4.5 of the spec words it:
the insertion sequence is the memory pairs — key = fixed-width big-endian
encoding of the address right-shifted by 2 bits, value = raw value bytes —
followed by the register file, encoded as a length-prefixed list of combined
register words, under the all-zero 4-byte key. -/
def stateRootSpec (s : EmulatorState) : List (List Nat × List Nat) :=
  buildTrie ((s.memories.map fun p => (be32Bytes (p.1 >>> 2), p.2)) ++
    [([0, 0, 0, 0], rlpRegs s.regs)])

/- ### The execution controller's exit-point policy (emulator.rs 226-233) -/

/-- `default_exitpoint`: the default exit address selected from the
architecture's pointer width.  The source's `unreachable!()` arm (a panic)
is modelled as 0; no caller reaches it. -/
def default_exitpoint (pointSize : Nat) : Nat :=
  match pointSize with
  | 2 => 0xfffff
  | 4 => 0x8fffffff
  | 8 => 0xffffffffffffffff
  | _ => 0

/- ### Memory events and the shadow-memory mirror -/

/-- The engine's memory-event kinds (`unicorn_const::MemType`). -/
inductive MemType where
  | READ | WRITE | FETCH
  | READ_UNMAPPED | WRITE_UNMAPPED | FETCH_UNMAPPED
  | WRITE_PROT | READ_PROT | FETCH_PROT
  | READ_AFTER
deriving DecidableEq

/-- One memory event as delivered to a hook: kind, address, size in bytes and
the (already resolved) value, an `i64` in the source. -/
structure MemEvent where
  mtype : MemType
  addr : Nat
  size : Nat
  value : Int
deriving DecidableEq

/-- `MemAccess` (emulator.rs 279-286): one observed memory operation. -/
structure MemAccess where
  write : Bool
  addr : Nat
  size : Nat
  value : Int
deriving DecidableEq

/-- A hook value reinterpreted as the unsigned 64-bit word it transports. -/
def valUnsigned (v : Int) : Nat := (v % (2 ^ 64 : Int)).toNat

/-- Byte `i` (0 = most significant) of the low `size` bytes of a hook value,
in big-endian order. -/
def byteOfValue (v : Int) (size i : Nat) : Nat :=
  valUnsigned v >>> (8 * (size - 1 - i)) % 256

/-- Modelled from the spec: the Shadow Memory Mirror (`MemoryState`, kept in
the `engine` module outside this repository) is a sparse store of 32-bit
words: word-aligned address to the word's 4 bytes.  A byte of an absent word
reads as 0.  `mirrorReadBytes` is its `read_bytes`. -/
def mirrorReadBytes (mem : List (Nat × List Nat)) (addr size : Nat) : List Nat :=
  (List.range size).map fun i =>
    (((lookupAssoc mem ((addr + i) / 4 * 4)).getD [0, 0, 0, 0]).getD ((addr + i) % 4) 0)

/-- Write one byte into the word-granular mirror. -/
def mirrorWriteByte (mem : List (Nat × List Nat)) (addr b : Nat) : List (Nat × List Nat) :=
  let w := addr / 4 * 4
  setAssoc mem w (((lookupAssoc mem w).getD [0, 0, 0, 0]).set (addr % 4) b)

/-- Modelled from the spec: `MemoryState::write_value` — store the low `size`
bytes of the value, big-endian, at `addr`. -/
def mirrorWriteValue (mem : List (Nat × List Nat)) (addr size : Nat) (v : Int) :
    List (Nat × List Nat) :=
  (List.range size).foldl (fun mm i => mirrorWriteByte mm (addr + i) (byteOfValue v size i)) mem

/-- Result of one invocation of the permanent memory hook: the updated mirror
and the verdict of the `debug_assert_eq!` consistency check. -/
structure HookOutcome where
  mirror : List (Nat × List Nat)
  checkOk : Bool
deriving DecidableEq

/-- The permanent memory hook installed by `Emulator::new` (emulator.rs
44-74).  `engineBytes` is `uc.mem_read_as_vec(addr, size)`, the engine's live
content.  On WRITE it checks the mirror's pre-write content against the live
content and writes the value into the mirror; on READ_AFTER it checks the low
`size` big-endian bytes of the value against the mirror; other event kinds do
nothing. -/
def permMemHook (engineBytes : List Nat) (mirror : List (Nat × List Nat))
    (t : MemType) (addr size : Nat) (value : Int) : HookOutcome :=
  match t with
  | MemType.WRITE =>
    { mirror := mirrorWriteValue mirror addr size value,
      checkOk := engineBytes == mirrorReadBytes mirror addr size }
  | MemType.READ_AFTER =>
    { mirror := mirror,
      checkOk := ((be32Bytes (valUnsigned value)).drop (4 - size)) ==
        mirrorReadBytes mirror addr size }
  | _ => { mirror := mirror, checkOk := true }

/- ### The engine machine model -/

/-- Modelled from the spec: one decoded instruction of the external CPU
engine — the ordered data-memory events it performs, the next program
counter, and its register updates. -/
structure Instr where
  events : List MemEvent
  nextPc : Nat
  regWrites : List (Nat × Nat)
deriving DecidableEq

/-- Modelled from the spec: the state of one engine instance together with
the controller state `Emulator::new` wires into it: program counter, register
file, the engine's live byte memory, the Shadow Memory Mirror, the Step
Counter, the decode table, the architecture's pointer width, and whether the
transient access-logger hook is currently installed. -/
structure Machine where
  pc : Nat
  pointerSize : Nat
  regs : List (Nat × Nat)
  liveMem : List (Nat × Nat)
  mirror : List (Nat × List Nat)
  steps : Nat
  prog : List (Nat × Instr)
  hookInstalled : Bool
deriving DecidableEq

/-- A byte of the engine's live memory (`uc.mem_read_as_vec`; absent bytes

read as 0 in the model). -/
def liveByte (mem : List (Nat × Nat)) (addr : Nat) : Nat := (lookupAssoc mem addr).getD 0

/-- `uc.mem_read_as_vec(addr, size)`: `size` bytes of live memory. -/
def liveReadBytes (mem : List (Nat × Nat)) (addr size : Nat) : List Nat :=
  (List.range size).map fun i => liveByte mem (addr + i)

/-- The big-endian 32-bit word at `addr` in live memory
(`u32::from_be_bytes(mem_read_as_vec(addr, 4))`). -/
def readWord32 (mem : List (Nat × Nat)) (addr : Nat) : Nat :=
  ((liveByte mem addr * 256 + liveByte mem (addr + 1)) * 256 +
    liveByte mem (addr + 2)) * 256 + liveByte mem (addr + 3)

/-- The engine's own application of a memory write to its live memory. -/
def liveWrite (mem : List (Nat × Nat)) (addr size : Nat) (v : Int) : List (Nat × Nat) :=
  (List.range size).foldl (fun mm i => setAssoc mm (addr + i) (byteOfValue v size i)) mem

/-- The transient access-logger hook of `run_until` (emulator.rs 170-199):
WRITE events append a write entry; READ_AFTER, READ and FETCH events append a
read entry; every other event kind appends nothing. -/
def logEntry (e : MemEvent) : Option MemAccess :=
  match e.mtype with
  | MemType.WRITE => some { write := true, addr := e.addr, size := e.size, value := e.value }
  | MemType.READ_AFTER => some { write := false, addr := e.addr, size := e.size, value := e.value }
  | MemType.READ => some { write := false, addr := e.addr, size := e.size, value := e.value }
  | MemType.FETCH => some { write := false, addr := e.addr, size := e.size, value := e.value }
  | _ => none

/-- Deliver one memory event: the permanent hook updates the mirror (checks
run before the engine applies a write), then the engine applies the write to
its live memory. -/
def applyEvent (m : Machine) (e : MemEvent) : Machine :=
  let m1 := { m with
    mirror := (permMemHook (liveReadBytes m.liveMem e.addr e.size)
      m.mirror e.mtype e.addr e.size e.value).mirror }
  match e.mtype with
  | MemType.WRITE => { m1 with liveMem := liveWrite m1.liveMem e.addr e.size e.value }
  | _ => m1

/-- Apply an instruction's register updates. -/
def applyRegWrites (regs ws : List (Nat × Nat)) : List (Nat × Nat) :=
  ws.foldl (fun r p => setAssoc r p.1 p.2) regs

/-- Modelled from the spec: retire one instruction.  The permanent code hook
increments the Step Counter, the memory events fire in order through the
installed hooks, then the engine commits the register updates and the next
program counter.  The second component is what the transient access-logger
hook appended (empty when it is not installed). -/
def execInstr (m : Machine) (i : Instr) : Machine × List MemAccess :=
  let m2 := i.events.foldl applyEvent { m with steps := m.steps + 1 }
  ({ m2 with pc := i.nextPc, regs := applyRegWrites m2.regs i.regWrites },
   if m.hookInstalled then i.events.filterMap logEntry else [])

/-- Outcome of a bounded engine run: whether it completed without an engine
error, the machine afterwards (also on error: the engine mutates in place),
and the access-log entries appended while it ran. -/
structure RunResult where
  ok : Bool
  machine : Machine
  log : List MemAccess
deriving DecidableEq

/-- Modelled from the spec: the engine's bounded run loop behind `emu_start`.
Execution halting at or beyond the exit address is normal termination; a
missing decode is an engine error.  `run_until` only calls it with a positive
instruction bound; wall-clock timeouts are outside the model. -/
def emuRun : Machine → Nat → Nat → RunResult
  | m, _, 0 => { ok := true, machine := m, log := [] }
  | m, exitp, n + 1 =>
    if exitp ≤ m.pc then { ok := true, machine := m, log := [] }
    else
      match lookupAssoc m.prog m.pc with
      | none => { ok := false, machine := m, log := [] }
      | some i =>
        let me := execInstr m i
        let r := emuRun me.1 exitp n
        { ok := r.ok, machine := r.machine, log := me.2 ++ r.log }

/-- `Engine::emu_start(begin, until, timeout, count)`: start at `begin` and
run at most `count` instructions, bounded by the exit address. -/
def emuStart (m : Machine) (beginAddr exitp count : Nat) : RunResult :=
  emuRun { m with pc := beginAddr } exitp count

/- ### The execution controller (`Emulator::run_until`, emulator.rs 135-213) -/

/-- `EmulatorState` capture by `Emulator::save` (emulator.rs 215-223): the
register file, the mirror's sparse image and the step count. -/
def save (m : Machine) : EmulatorState :=
  { regs := m.regs, memories := m.mirror, steps := m.steps }

/-- `StateChange` (emulator.rs 235-241). -/
structure StateChange where
  state_before : EmulatorState
  state_after : EmulatorState
  step : Nat
  access : List MemAccess
deriving DecidableEq

/-- `exitpoint.unwrap_or_else(|| default_exitpoint(pointer_size))`. -/
def exitOf (m : Machine) (exitpoint : Option Nat) : Nat :=
  exitpoint.getD (default_exitpoint m.pointerSize)

/-- The synthetic first log entry `run_until` pushes before installing its
hook (emulator.rs 155-168): a read of size 4 at the current program counter
whose value is the big-endian instruction word there. -/
def seedAccess (m : Machine) : MemAccess :=
  { write := false, addr := m.pc, size := 4, value := Int.ofNat (readWord32 m.liveMem m.pc) }

/-- The `state_before` phase of `run_until` (emulator.rs 146-152): with a
zero count the current state is kept untouched, otherwise the engine first
runs `count` untraced instructions from the entry point. -/
def preRunMachine (m : Machine) (entrypoint exitp count : Nat) : RunResult :=
  if count = 0 then { ok := true, machine := m, log := [] }
  else emuStart m entrypoint exitp count

/-- The traced phase of `run_until` (emulator.rs 170-201): install the
access-logger hook, then `emu_start(pc, exitpoint, timeout, 1)`. -/
def tracedRun (m : Machine) (exitp : Nat) : RunResult :=
  emuStart { m with hookInstalled := true } m.pc exitp 1

/-- `Emulator::run_until` (emulator.rs 135-213).  The pair's second component
is the engine state when the call returns, also on the error paths — the
source mutates `self` in place and propagates errors with `?`, so an error in
the traced `emu_start` returns before `remove_hook` runs. -/
def runUntil (m : Machine) (entrypoint : Nat) (exitpoint timeout : Option Nat) (count : Nat) :
    Option StateChange × Machine :=
  let exitp := exitOf m exitpoint
  let pre := preRunMachine m entrypoint exitp count
  if pre.ok then
    let r2 := tracedRun pre.machine exitp
    if r2.ok then
      let m3 := { r2.machine with hookInstalled := false }
      (some { state_before := save pre.machine, state_after := save m3,
              step := count + 1,
              access := seedAccess pre.machine :: r2.log }, m3)
    else (none, r2.machine)
  else (none, pre.machine)

/- ### Concrete machines used to witness the `run_until` theorems -/

/-- A machine whose single instruction performs no data memory access. -/
def mC1 : Machine :=
  { pc := 16, pointerSize := 4, regs := [(1, 7)],
    liveMem := [(16, 18), (17, 52), (18, 86), (19, 120)], mirror := [], steps := 5,
    prog := [(16, { events := [], nextPc := 20, regWrites := [(1, 8)] })],
    hookInstalled := false }

/-- The `StateChange` produced by `run_until` on `mC1` with count 0. -/
def scC1 : StateChange :=
  (runUntil mC1 0 none none 0).1.getD ⟨⟨[], [], 0⟩, ⟨[], [], 0⟩, 0, []⟩

/-- The engine state after that call. -/
def mC1p : Machine := (runUntil mC1 0 none none 0).2

/-- A two-instruction machine used with count 1: the untraced instruction at
16 advances to 20, where the traced instruction sits. -/
def mC5 : Machine :=
  { pc := 16, pointerSize := 4, regs := [],
    liveMem := [(20, 170), (21, 187), (22, 204), (23, 221)], mirror := [], steps := 0,
    prog := [(16, { events := [], nextPc := 20, regWrites := [] }),
             (20, { events := [], nextPc := 24, regWrites := [] })],
    hookInstalled := false }

/-- The `StateChange` produced by `run_until` on `mC5` with count 1. -/
def scC5 : StateChange :=
  (runUntil mC5 16 none none 1).1.getD ⟨⟨[], [], 0⟩, ⟨[], [], 0⟩, 0, []⟩

/-- The engine state after that call. -/
def mC5p : Machine := (runUntil mC5 16 none none 1).2

/-- An instruction with no data memory access. -/
def iC6a : Instr := { events := [], nextPc := 20, regWrites := [] }

/-- An instruction performing one load then one store. -/
def iC6b : Instr :=
  { events := [{ mtype := MemType.READ_AFTER, addr := 100, size := 1, value := 42 },
               { mtype := MemType.WRITE, addr := 200, size := 1, value := 7 }],
    nextPc := 20, regWrites := [] }

/-- A machine whose traced instruction performs no data memory access. -/
def mC6a : Machine :=
  { pc := 16, pointerSize := 4, regs := [], liveMem := [], mirror := [], steps := 0,
    prog := [(16, iC6a)], hookInstalled := false }

/-- The `StateChange` produced by `run_until` on `mC6a` with count 0. -/
def scC6a : StateChange :=
  (runUntil mC6a 0 none none 0).1.getD ⟨⟨[], [], 0⟩, ⟨[], [], 0⟩, 0, []⟩

/-- The engine state after that call. -/
def mC6ap : Machine := (runUntil mC6a 0 none none 0).2

/-- A machine whose traced instruction performs one load then one store. -/
def mC6b : Machine :=
  { pc := 16, pointerSize := 4, regs := [], liveMem := [], mirror := [], steps := 0,
    prog := [(16, iC6b)], hookInstalled := false }

/-- The `StateChange` produced by `run_until` on `mC6b` with count 0. -/
def scC6b : StateChange :=
  (runUntil mC6b 0 none none 0).1.getD ⟨⟨[], [], 0⟩, ⟨[], [], 0⟩, 0, []⟩

/-- The engine state after that call. -/
def mC6bp : Machine := (runUntil mC6b 0 none none 0).2

/-- A machine on which the traced single-instruction `emu_start` of
`run_until` fails: there is no decodable instruction at the current program
counter. -/
def leakMachine : Machine :=
  { pc := 16, pointerSize := 4, regs := [], liveMem := [], mirror := [], steps := 0,
    prog := [], hookInstalled := false }

/- ### Trie lemmas -/

/-- Inserting two pairs with distinct key values commutes. -/
theorem trieInsert_comm (e1 e2 : List Nat × List Nat) (h : keyVal e1.1 ≠ keyVal e2.1) :
    ∀ t, trieInsert (trieInsert t e1) e2 = trieInsert (trieInsert t e2) e1 := by
  intro t
  induction t with
  | nil =>
    simp only [trieInsert]
    split_ifs <;> first | rfl | omega
  | cons kv t ih =>
    simp only [trieInsert]
    split_ifs <;> simp only [trieInsert] <;> split_ifs <;>
      first | rfl | omega | (rw [ih])

/-- Inserting at a key and then inserting again at the same key value is the
same as inserting only the second pair: the first value is overwritten. -/
theorem trieInsert_overwrite (e1 e2 : List Nat × List Nat) (h : keyVal e1.1 = keyVal e2.1) :
    ∀ t, trieInsert (trieInsert t e1) e2 = trieInsert t e2 := by
  intro t
  induction t with
  | nil =>
    simp only [trieInsert]
    split_ifs <;> first | rfl | omega
  | cons kv t ih =>
    simp only [trieInsert]
    split_ifs <;> simp only [trieInsert] <;> split_ifs <;>
      first | rfl | omega | (rw [ih])

/-- Folding memory insertions over a list preserves the relation "equal after
one more insertion at key value 0"; used for the shadowing argument. -/
theorem trieInsert_key0_fold (post : List (Nat × List Nat)) :
    ∀ t1 t2 : List (List Nat × List Nat),
      (∀ e, keyVal e.1 = 0 → trieInsert t1 e = trieInsert t2 e) →
      ∀ e, keyVal e.1 = 0 →
        trieInsert (post.foldl (fun tr p => trieInsert tr (memKey p.1, p.2)) t1) e =
        trieInsert (post.foldl (fun tr p => trieInsert tr (memKey p.1, p.2)) t2) e := by
  induction post with
  | nil => intro t1 t2 hR e he; exact hR e he
  | cons p post ih =>
    intro t1 t2 hR e he
    simp only [List.foldl_cons]
    refine ih _ _ (fun e' he' => ?_) e he
    by_cases h0 : keyVal (memKey p.1, p.2).1 = 0
    · rw [trieInsert_overwrite _ _ (h0.trans he'.symm),
        trieInsert_overwrite _ _ (h0.trans he'.symm)]
      exact hR e' he'
    · have hne : keyVal (memKey p.1, p.2).1 ≠ keyVal e'.1 := fun hh => h0 (hh.trans he')
      rw [trieInsert_comm _ _ hne, hR e' he', ← trieInsert_comm _ _ hne]

/- ### C9 -/

/-- C9: with no explicit exit address, the default exit address is selected by
pointer width: the top of a 20-bit address lane (2^20 − 1) for 2-byte
pointers, the constant 0x8fffffff — on the order of 2^31, i.e. approximately
2^31 − 1 — for 4-byte pointers, and the maximum u64 value for 8-byte
pointers. -/
theorem default_exitpoint_by_pointer_width :
    default_exitpoint 2 = 2 ^ 20 - 1 ∧
    default_exitpoint 4 = 0x8fffffff ∧
    2 ^ 31 - 1 ≤ default_exitpoint 4 ∧ default_exitpoint 4 < 2 ^ 32 ∧
    default_exitpoint 8 = 2 ^ 64 - 1 := by
  refine ⟨rfl, rfl, by norm_num [default_exitpoint], by norm_num [default_exitpoint], rfl⟩

/- ### C3: the exact construction of the state root -/

/-- C3: `state_root` builds the trie exactly as specified — every memory pair
is inserted with key the fixed-width big-endian encoding of the address
shifted right by 2 bits and value the raw bytes, then the register file,
encoded as a length-prefixed list of combined (id ≪ 32) + value words, is
inserted under the all-zero 4-byte key, and the committed trie's root is
returned. -/
theorem stateRoot_construction (s : EmulatorState) : stateRoot s = stateRootSpec s := by
  unfold stateRoot stateRootSpec buildTrie
  rw [List.foldl_append, List.foldl_map]
  rfl

/- ### C2: determinism and insertion-order invariance -/

/-- C2: the state root is deterministic, and permuting the insertion order of
the (address, value) pairs (their trie keys being pairwise distinct) does not
change the root. -/
theorem stateRoot_insertion_order (regs : List (Nat × Nat)) (steps : Nat)
    (l1 l2 : List (Nat × List Nat)) (hperm : l1.Perm l2)
    (hnd : (l1.map fun e => keyVal (memKey e.1)).Nodup) :
    stateRoot ⟨regs, l1, steps⟩ = stateRoot ⟨regs, l1, steps⟩ ∧
    stateRoot ⟨regs, l1, steps⟩ = stateRoot ⟨regs, l2, steps⟩ := by
  refine ⟨rfl, ?_⟩
  have hfold :
      l1.foldl (fun tr e => trieInsert tr (memKey e.1, e.2)) [] =
      l2.foldl (fun tr e => trieInsert tr (memKey e.1, e.2)) [] := by
    refine hperm.foldl_eq' (fun x hx y hy z => ?_) []
    by_cases hxy : x = y
    · subst hxy; rfl
    · have hk : keyVal (memKey x.1) ≠ keyVal (memKey y.1) :=
        fun hh => hxy (List.inj_on_of_nodup_map hnd hx hy hh)
      exact trieInsert_comm (memKey x.1, x.2) (memKey y.1, y.2) hk z
  unfold stateRoot
  rw [hfold]

/-- Witness for C2 at a concrete pair of insertion orders. -/
theorem stateRoot_insertion_order_witness :
    stateRoot ⟨[(1, 3)], [(8, [1]), (4, [2])], 0⟩ =
      stateRoot ⟨[(1, 3)], [(4, [2]), (8, [1])], 0⟩ :=
  (stateRoot_insertion_order [(1, 3)] 0 [(8, [1]), (4, [2])] [(4, [2]), (8, [1])]
    (by decide) (by decide)).2

/- ### C7: the root depends only on memories and registers -/

/-- C7: two snapshots with identical sparse memory images and identical
register files have identical state roots, whatever their step counts: the
commitment never reads the `steps` field (nor any access log, which is not
part of a snapshot at all). -/
theorem stateRoot_ignores_steps (s1 s2 : EmulatorState)
    (hm : s1.memories = s2.memories) (hr : s1.regs = s2.regs) :
    stateRoot s1 = stateRoot s2 := by
  cases s1; cases s2
  cases hm; cases hr
  rfl

/-- Witness for C7: equal roots for snapshots differing only in `steps`. -/
theorem stateRoot_ignores_steps_witness :
    stateRoot ⟨[(1, 2)], [(4, [9])], 0⟩ = stateRoot ⟨[(1, 2)], [(4, [9])], 99⟩ :=
  stateRoot_ignores_steps ⟨[(1, 2)], [(4, [9])], 0⟩ ⟨[(1, 2)], [(4, [9])], 99⟩ rfl rfl

/- ### C10: a memory word at index zero is shadowed by the register leaf -/

/-- C10: an address below 4 has trie key equal to the all-zero 4-byte
register key, and since the register encoding is inserted after the memory
entries it overwrites that slot: two states differing only in the value
stored at such an address have identical roots. -/
theorem stateRoot_word0_shadowed (regs : List (Nat × Nat)) (steps : Nat)
    (pre post : List (Nat × List Nat)) (a : Nat) (v1 v2 : List Nat) (ha : a < 4) :
    memKey a = be32Bytes 0 ∧
    stateRoot ⟨regs, pre ++ (a, v1) :: post, steps⟩ =
      stateRoot ⟨regs, pre ++ (a, v2) :: post, steps⟩ := by
  have hsh : a >>> 2 = 0 := by
    rw [Nat.shiftRight_eq_div_pow]
    omega
  have hk0 : keyVal (memKey a) = 0 := by
    unfold memKey
    rw [hsh]
    decide
  refine ⟨by unfold memKey; rw [hsh], ?_⟩
  unfold stateRoot
  simp only [List.foldl_append, List.foldl_cons]
  have hz : keyVal (be32Bytes 0) = 0 := by decide
  refine trieInsert_key0_fold post _ _ (fun e he => ?_) (be32Bytes 0, rlpRegs regs) hz
  rw [trieInsert_overwrite _ _ (hk0.trans he.symm),
    trieInsert_overwrite _ _ (hk0.trans he.symm)]

/-- Witness for C10: changing the value stored at address 0 leaves the root
unchanged. -/
theorem stateRoot_word0_shadowed_witness :
    memKey 0 = be32Bytes 0 ∧
    stateRoot ⟨[(1, 5)], [(0, [1]), (8, [9])], 0⟩ =
      stateRoot ⟨[(1, 5)], [(0, [2]), (8, [9])], 0⟩ :=
  stateRoot_word0_shadowed [(1, 5)] 0 [] [(8, [9])] 0 [1] [2] (by decide)

/- ### Machine-model helper lemmas -/

/-- Unfolding of the engine loop at an instruction bound of one. -/
theorem emuRun_one (m : Machine) (exitp : Nat) :
    emuRun m exitp 1 =
      if exitp ≤ m.pc then { ok := true, machine := m, log := [] }
      else
        match lookupAssoc m.prog m.pc with
        | none => { ok := false, machine := m, log := [] }
        | some i =>
          { ok := true, machine := (execInstr m i).1, log := (execInstr m i).2 ++ [] } := rfl

/-- `save` ignores the transient-hook flag. -/
theorem save_hookFlag (m : Machine) (b : Bool) : save { m with hookInstalled := b } = save m := rfl

/-- Event delivery only threads the transient-hook flag through. -/
theorem applyEvent_flag (pc ps : Nat) (regs lm : List (Nat × Nat))
    (mir : List (Nat × List Nat)) (st : Nat) (prog : List (Nat × Instr)) (b1 b2 : Bool)
    (e : MemEvent) :
    applyEvent ⟨pc, ps, regs, lm, mir, st, prog, b1⟩ e =
      { applyEvent ⟨pc, ps, regs, lm, mir, st, prog, b2⟩ e with hookInstalled := b1 } := by
  cases e with
  | mk t a s v => cases t <;> rfl

/-- Folding event delivery only threads the transient-hook flag through. -/
theorem foldl_applyEvent_flag (es : List MemEvent) :
    ∀ (pc ps : Nat) (regs lm : List (Nat × Nat)) (mir : List (Nat × List Nat)) (st : Nat)
      (prog : List (Nat × Instr)) (b1 b2 : Bool),
      es.foldl applyEvent ⟨pc, ps, regs, lm, mir, st, prog, b1⟩ =
        { es.foldl applyEvent ⟨pc, ps, regs, lm, mir, st, prog, b2⟩ with hookInstalled := b1 } := by
  induction es with
  | nil => intros; rfl
  | cons e es ih =>
    intro pc ps regs lm mir st prog b1 b2
    cases e with
    | mk t a s v =>
      cases t <;>
        · simp only [List.foldl_cons, applyEvent]
          exact ih _ _ _ _ _ _ _ _ _

/-- The machine produced by retiring one instruction does not depend on the
transient-hook flag (which only selects whether log entries are returned). -/
theorem save_execInstr_hook (m : Machine) (b : Bool) (i : Instr) :
    save (execInstr { m with hookInstalled := b } i).1 = save (execInstr m i).1 := by
  cases m with
  | mk pc ps regs lm mir st prog hk =>
    unfold execInstr save
    simp only [foldl_applyEvent_flag i.events pc ps regs lm mir (st + 1) prog b hk]

/-- Characterization of a successful traced single-instruction run whose
start is below the exit address: exactly one instruction decodes and
retires, and the log is one entry per loggable event of that instruction,
in order. -/
theorem tracedRun_ok (m1 : Machine) (exitp : Nat) (hpc : m1.pc < exitp)
    (hok : (tracedRun m1 exitp).ok = true) :
    ∃ i, lookupAssoc m1.prog m1.pc = some i ∧
      (tracedRun m1 exitp).machine = (execInstr { m1 with hookInstalled := true } i).1 ∧
      (tracedRun m1 exitp).log = i.events.filterMap logEntry := by
  have hpc' : ¬ exitp ≤ m1.pc := by omega
  cases hl : lookupAssoc m1.prog m1.pc with
  | none =>
    exfalso
    unfold tracedRun emuStart at hok
    rw [emuRun_one] at hok
    simp only [hpc', if_false, hl] at hok
    exact Bool.noConfusion hok
  | some i =>
    refine ⟨i, rfl, ?_, ?_⟩
    · unfold tracedRun emuStart
      rw [emuRun_one]
      simp only [hpc', if_false, hl]
    · unfold tracedRun emuStart
      rw [emuRun_one]
      simp [hpc', hl, execInstr]

/- ### C1: snapshot-and-single-step structure of `run_until` -/

/-- C1: for every successful `run_until(entry, exit, timeout, count)` call,
`step = count + 1`; `state_before` is the snapshot of the machine after the
count-bounded untraced pre-run — with no execution at all when `count = 0` —
and, whenever the pre-run machine's program counter is below the exit
address, exactly one further (traced) instruction retires and `state_after`
is the snapshot right after it. -/
theorem runUntil_structure (m : Machine) (entrypoint : Nat) (exitpoint timeout : Option Nat)
    (count : Nat) (sc : StateChange) (m' : Machine)
    (h : runUntil m entrypoint exitpoint timeout count = (some sc, m')) :
    sc.step = count + 1 ∧
    sc.state_before = save (preRunMachine m entrypoint (exitOf m exitpoint) count).machine ∧
    (count = 0 → sc.state_before = save m) ∧
    ((preRunMachine m entrypoint (exitOf m exitpoint) count).machine.pc < exitOf m exitpoint →
      ∃ i, lookupAssoc (preRunMachine m entrypoint (exitOf m exitpoint) count).machine.prog
          (preRunMachine m entrypoint (exitOf m exitpoint) count).machine.pc = some i ∧
        sc.state_after =
          save (execInstr (preRunMachine m entrypoint (exitOf m exitpoint) count).machine i).1) := by
  simp only [runUntil] at h
  split at h
  · split at h
    · rename_i h1 h2
      simp only [Prod.mk.injEq, Option.some.injEq] at h
      obtain ⟨hsc, hm'⟩ := h
      subst hsc
      refine ⟨rfl, rfl, ?_, ?_⟩
      · intro h0
        subst h0
        rfl
      · intro hpc
        obtain ⟨i, hi, hmach, _⟩ := tracedRun_ok _ _ hpc h2
        refine ⟨i, hi, ?_⟩
        show save { (tracedRun (preRunMachine m entrypoint (exitOf m exitpoint) count).machine
          (exitOf m exitpoint)).machine with hookInstalled := false } = _
        rw [hmach, save_hookFlag, save_execInstr_hook]
    · simp at h
  · simp at h

/-- Witness for C1 at `count = 0` on the concrete machine `mC1`. -/
theorem runUntil_structure_witness :
    scC1.step = 0 + 1 ∧ scC1.state_before = save mC1 := by
  have hres := runUntil_structure mC1 0 none none 0 scC1 mC1p rfl
  exact ⟨hres.1, hres.2.2.1 rfl⟩

/- ### C5: the seeded fetch entry heads the access log -/

/-- C5: on every successful `run_until` call, the first entry of the access
log is the seeded fetch: not a write, at the program counter current when
the log was seeded (i.e. after the untraced pre-run), size 4, with the
big-endian 32-bit instruction word read from memory at that program
counter as its value. -/
theorem runUntil_seeded_fetch (m : Machine) (entrypoint : Nat) (exitpoint timeout : Option Nat)
    (count : Nat) (sc : StateChange) (m' : Machine)
    (h : runUntil m entrypoint exitpoint timeout count = (some sc, m')) :
    sc.access.head? = some
      { write := false,
        addr := (preRunMachine m entrypoint (exitOf m exitpoint) count).machine.pc,
        size := 4,
        value := Int.ofNat (readWord32
          (preRunMachine m entrypoint (exitOf m exitpoint) count).machine.liveMem
          (preRunMachine m entrypoint (exitOf m exitpoint) count).machine.pc) } := by
  simp only [runUntil] at h
  split at h
  · split at h
    · simp only [Prod.mk.injEq, Option.some.injEq] at h
      obtain ⟨hsc, _⟩ := h
      subst hsc
      rfl
    · simp at h
  · simp at h

/-- Witness for C5 on the concrete machine `mC5` with `count = 1`. -/
theorem runUntil_seeded_fetch_witness :
    scC5.access.head? = some { write := false, addr := 20, size := 4, value := 2864434397 } :=
  (runUntil_seeded_fetch mC5 16 none none 1 scC5 mC5p rfl).trans (by decide)

/- ### C6: one log entry per data memory operation, in order -/

/-- C6: on every successful `run_until` whose traced phase starts below the
exit address, the access log is exactly the seeded fetch followed by one
entry per loggable data-memory event of the traced instruction, in the order
the engine emitted them; hence an instruction with no data memory access
gives length 1 and a load-then-store instruction gives length 3. -/
theorem runUntil_access_per_op (m : Machine) (entrypoint : Nat) (exitpoint timeout : Option Nat)
    (count : Nat) (sc : StateChange) (m' : Machine)
    (h : runUntil m entrypoint exitpoint timeout count = (some sc, m'))
    (hpc : (preRunMachine m entrypoint (exitOf m exitpoint) count).machine.pc <
      exitOf m exitpoint) :
    ∃ i, lookupAssoc (preRunMachine m entrypoint (exitOf m exitpoint) count).machine.prog
        (preRunMachine m entrypoint (exitOf m exitpoint) count).machine.pc = some i ∧
      sc.access = seedAccess (preRunMachine m entrypoint (exitOf m exitpoint) count).machine ::
        i.events.filterMap logEntry ∧
      sc.access.length = (i.events.filterMap logEntry).length + 1 := by
  simp only [runUntil] at h
  split at h
  · split at h
    · rename_i h1 h2
      simp only [Prod.mk.injEq, Option.some.injEq] at h
      obtain ⟨hsc, _⟩ := h
      subst hsc
      obtain ⟨i, hi, _, hlog⟩ := tracedRun_ok _ _ hpc h2
      refine ⟨i, hi, ?_, ?_⟩
      · show seedAccess _ :: (tracedRun _ _).log = _
        rw [hlog]
      · show (seedAccess _ :: (tracedRun _ _).log).length = _
        rw [hlog, List.length_cons]
    · simp at h
  · simp at h

/-- Witness for C6: the no-data-access instruction of `mC6a` yields a log of
length 1, and the load-then-store instruction of `mC6b` yields the seeded
fetch followed by the read then the write, in occurrence order. -/
theorem runUntil_access_per_op_witness :
    scC6a.access.length = 1 ∧
    scC6b.access = [seedAccess mC6b,
      { write := false, addr := 100, size := 1, value := 42 },
      { write := true, addr := 200, size := 1, value := 7 }] := by
  constructor
  · obtain ⟨i, hi, _, hlen⟩ :=
      runUntil_access_per_op mC6a 0 none none 0 scC6a mC6ap rfl (by decide)
    have hieq : iC6a = i := by
      have h2 : lookupAssoc (preRunMachine mC6a 0 (exitOf mC6a none) 0).machine.prog
          (preRunMachine mC6a 0 (exitOf mC6a none) 0).machine.pc = some iC6a := rfl
      exact Option.some.inj (h2.symm.trans hi)
    rw [hlen, ← hieq]
    decide
  · obtain ⟨i, hi, hacc, _⟩ :=
      runUntil_access_per_op mC6b 0 none none 0 scC6b mC6bp rfl (by decide)
    have hieq : iC6b = i := by
      have h2 : lookupAssoc (preRunMachine mC6b 0 (exitOf mC6b none) 0).machine.prog
          (preRunMachine mC6b 0 (exitOf mC6b none) 0).machine.pc = some iC6b := rfl
      exact Option.some.inj (h2.symm.trans hi)
    rw [hacc, ← hieq]
    decide

/- ### C8: the transient hook is NOT removed on the traced error path -/

/-- C8 (refuted by the code): `run_until` propagates an error of the traced
single-instruction `emu_start` with the `?` operator before `remove_hook`
runs, so on `leakMachine` — whose current program counter has no decodable
instruction — the call returns an error while the transient access-logger
hook is still installed.  The claim (and §9 of the spec) requires removal on
every exit path, including error exits. -/
theorem runUntil_hook_leak :
    (runUntil leakMachine 16 none none 0).1 = none ∧
    (runUntil leakMachine 16 none none 0).2.hookInstalled = true := by
  decide

/- ### C4: behavior of the permanent memory hook -/

/-- C4: on every event the permanent memory hook installed at construction
behaves as the spec's §4.1 contract states: a WRITE event writes the value
into the mirror after a consistency assertion comparing the mirror's
pre-write content with the engine's live content for that address and size;
a READ-AFTER event leaves the mirror untouched and asserts the low `size`
big-endian bytes of the resolved value against the mirror's content; and no
event kind other than WRITE mutates the mirror. -/
theorem permMemHook_behavior (eb : List Nat) (mirror : List (Nat × List Nat)) (t : MemType)
    (addr size : Nat) (value : Int) :
    (t = MemType.WRITE →
      (permMemHook eb mirror t addr size value).mirror =
        mirrorWriteValue mirror addr size value ∧
      ((permMemHook eb mirror t addr size value).checkOk = true ↔
        eb = mirrorReadBytes mirror addr size)) ∧
    (t = MemType.READ_AFTER →
      (permMemHook eb mirror t addr size value).mirror = mirror ∧
      ((permMemHook eb mirror t addr size value).checkOk = true ↔
        (be32Bytes (valUnsigned value)).drop (4 - size) = mirrorReadBytes mirror addr size)) ∧
    (t ≠ MemType.WRITE → (permMemHook eb mirror t addr size value).mirror = mirror) := by
  refine ⟨?_, ?_, ?_⟩
  · rintro rfl
    exact ⟨rfl, by simp [permMemHook]⟩
  · rintro rfl
    exact ⟨rfl, by simp [permMemHook]⟩
  · intro ht
    cases t
    case WRITE => exact absurd rfl ht
    all_goals rfl

/-- Witness for C4: a concrete WRITE updates the mirror as specified and a
concrete READ (not READ-AFTER, not WRITE) leaves it untouched. -/
theorem permMemHook_behavior_witness :
    (permMemHook [0, 0] [] MemType.WRITE 4 2 258).mirror = mirrorWriteValue [] 4 2 258 ∧
    (permMemHook [5] [] MemType.READ 8 1 0).mirror = [] :=
  ⟨((permMemHook_behavior [0, 0] [] MemType.WRITE 4 2 258).1 rfl).1,
   (permMemHook_behavior [5] [] MemType.READ 8 1 0).2.2 (by decide)⟩
